import Mathlib

/-!
Verification of the leaderboard repository's pure helper functions.

Embedded here are the two pure functions the specification calls the
"Rank Engine" and the "What-If Projector":

* `computeRanks` from `src/src/App.js` (lines 101-120): standard
  competition ranking over a player list, returning a map from score to
  `{rank, tieCount}` (modelled as an association list in descending
  score order, matching the JS `Map` insertion order).
* `calculateWhatIf` from the `calculateWhatIf.js` utility module
  (lines 250-310 of the concatenated source): best/current/worst case
  rank projection for a selected player.

JavaScript numbers holding scores are modelled as `Int`; nullable
strings (`official_answer`, `user_answer`) as `Option String` with JS
falsiness (`null`/`undefined`/`""` are falsy); nullable parameters as
`Option`; the returned JS objects as structures.
-/

namespace Leaderboard

/-- A player as consumed by both functions: `{ email, name, score }`. -/
structure Player where
  email : String
  name : String
  score : Int
  deriving DecidableEq, Repr

/-- A value of the rank map: `{ rank, tieCount }` (spec: `RankEntry`). -/
structure RankEntry where
  rank : Nat
  tieCount : Nat
  deriving DecidableEq, Repr

/-- Lookup (JS `Map.get`) on the association-list model of the JS `Map` built by
`computeRanks` (keys are pairwise distinct scores). -/
def lookupScore : List (Int × RankEntry) → Int → Option RankEntry
  | [], _ => none
  | (s, e) :: rest, t => if t = s then some e else lookupScore rest t

/-- The `uniqueScores.forEach` loop of `computeRanks` (App.js lines
112-117): walk the sorted distinct scores, emitting
`(score, {rank := currentRank, tieCount := count})` and advancing
`currentRank` by the count. -/
def rankWalk (counts : Int → Nat) : List Int → Nat → List (Int × RankEntry)
  | [], _ => []
  | s :: rest, currentRank =>
      (s, ⟨currentRank, counts s⟩) :: rankWalk counts rest (currentRank + counts s)

/-- The rank engine `computeRanks` (App.js lines 101-120).  `scoreCounts` is the count
of players at each score; `uniqueScores` is the deduplicated score list
sorted descending (the JS `[...new Set(..)].sort((a, b) => b - a)`);
the final walk is `rankWalk` starting from rank 1. -/
def computeRanks (players : List Player) : List (Int × RankEntry) :=
  rankWalk (fun s => (players.map Player.score).count s)
    (List.insertionSort (fun a b : Int => a ≥ b) (players.map Player.score).dedup) 1

/-- An answer record as consumed by `calculateWhatIf`:
`{ official_answer, user_answer }`, both nullable strings. -/
structure Answer where
  official_answer : Option String
  user_answer : Option String
  deriving DecidableEq, Repr

/-- JS falsiness of a nullable string: `null`/`undefined` and `""` are
falsy, every other string is truthy. -/
def falsy : Option String → Bool
  | none => true
  | some s => s == ""

/-- The filter predicate of line 256:
`a => !a.official_answer && a.user_answer` — the record is unresolved
when the official answer is falsy and the user answer is truthy. -/
def unresolved (a : Answer) : Bool :=
  falsy a.official_answer && !falsy a.user_answer

/-- The object returned by `calculateWhatIf` (spec: `WhatIfResult`). -/
structure WhatIfResult where
  unansweredCount : Nat
  potentialPoints : Nat
  currentScore : Int
  bestCaseScore : Int
  worstCaseScore : Int
  currentRank : Nat
  bestCaseRank : Nat
  worstCaseRank : Nat
  totalPlayers : Nat
  deriving DecidableEq, Repr

/-- The what-if projector `calculateWhatIf` (utility module lines 250-310).  The three guard
clauses of line 251 (`!selectedPlayer || !myAnswers || !players.length`)
and the all-resolved guard of line 258 return `none`; otherwise the
`let`-bound intermediates of the source are inlined:
`unansweredQuestions = myAnswers.filter(unresolved)`,
`potentialPoints = unansweredQuestions.length`,
`currentScore = selectedPlayer.score`,
`bestCaseScore = currentScore + potentialPoints`,
`worstCaseScore = currentScore`, and each rank is the source's counting
loop over `players` starting from 1 (`foldl`), with the worst-case loop
keeping the source's nested `if` shape. -/
def calculateWhatIf (selectedPlayer : Option Player) (players : List Player)
    (myAnswers : Option (List Answer)) : Option WhatIfResult :=
  match selectedPlayer, myAnswers with
  | none, _ => none
  | some _, none => none
  | some sp, some myAns =>
    if players.length = 0 then none
    else if (myAns.filter unresolved).length = 0 then none
    else some
      ⟨(myAns.filter unresolved).length,
       (myAns.filter unresolved).length,
       sp.score,
       sp.score + ((myAns.filter unresolved).length : Int),
       sp.score,
       players.foldl
         (fun r p => if p.email ≠ sp.email ∧ p.score > sp.score then r + 1 else r) 1,
       players.foldl
         (fun r p =>
           if p.email ≠ sp.email ∧
               p.score > sp.score + ((myAns.filter unresolved).length : Int)
           then r + 1 else r) 1,
       players.foldl
         (fun r p =>
           if p.email ≠ sp.email then
             if p.score + ((myAns.filter unresolved).length : Int) > sp.score
             then r + 1 else r
           else r) 1,
       players.length⟩

/-- The JS-evaluation view of `computeRanks`: called on a non-array
(`null`) argument, the very first `players.forEach` would throw a
`TypeError`; on any array it runs to completion with the pure result. -/
def computeRanksJS : Option (List Player) → Except String (List (Int × RankEntry))
  | none => Except.error "TypeError: players is not an array"
  | some players => Except.ok (computeRanks players)

/-- The JS-evaluation view of `calculateWhatIf`: line 251 evaluates
`!selectedPlayer`, then `!myAnswers`, and only then `players.length`,
which throws a `TypeError` when `players` is `null`/`undefined`; every
other path is the pure function. -/
def calculateWhatIfJS (selectedPlayer : Option Player)
    (players : Option (List Player)) (myAnswers : Option (List Answer)) :
    Except String (Option WhatIfResult) :=
  match selectedPlayer with
  | none => Except.ok none
  | some sp =>
    match myAnswers with
    | none => Except.ok none
    | some myAns =>
      match players with
      | none => Except.error "TypeError: cannot read length of null"
      | some ps => Except.ok (calculateWhatIf (some sp) ps (some myAns))

/-- A counting loop `for (p of l) if (A p) r++` started at `n` computes
`n` plus the number of elements satisfying `A`. -/
theorem foldl_count_if {α : Type} (A : α → Prop) [DecidablePred A] :
    ∀ (l : List α) (n : Nat),
      l.foldl (fun r x => if A x then r + 1 else r) n
        = n + l.countP (fun x => decide (A x))
  | [], _ => by simp
  | a :: l, n => by
    rw [List.foldl_cons, foldl_count_if A l, List.countP_cons]
    by_cases h : A a <;> simp [h] <;> omega

/-- The nested-`if` variant of `foldl_count_if` used by the worst-case
loop of `calculateWhatIf`. -/
theorem foldl_count_if₂ {α : Type} (A B : α → Prop)
    [DecidablePred A] [DecidablePred B] :
    ∀ (l : List α) (n : Nat),
      l.foldl (fun r x => if A x then (if B x then r + 1 else r) else r) n
        = n + l.countP (fun x => decide (A x) && decide (B x))
  | [], _ => by simp
  | a :: l, n => by
    rw [List.foldl_cons, foldl_count_if₂ A B l, List.countP_cons]
    by_cases hA : A a <;> by_cases hB : B a <;> simp [hA, hB] <;> omega

theorem sum_map_add (f g : Int → Nat) :
    ∀ l : List Int, (l.map fun x => f x + g x).sum = (l.map f).sum + (l.map g).sum
  | [] => by simp
  | a :: l => by simp [sum_map_add f g l]; omega

theorem sum_map_ind_of_not_mem (a : Int) :
    ∀ l : List Int, a ∉ l → (l.map fun t => if t = a then (1 : Nat) else 0).sum = 0
  | [], _ => rfl
  | b :: l, h => by
    have hba : ¬b = a := fun hba => h (hba ▸ List.mem_cons_self b l)
    have hl : a ∉ l := fun hl => h (List.mem_cons_of_mem b hl)
    simp [hba, sum_map_ind_of_not_mem a l hl]

theorem sum_map_ind_of_nodup (a : Int) :
    ∀ l : List Int, l.Nodup → a ∈ l →
      (l.map fun t => if t = a then (1 : Nat) else 0).sum = 1
  | [], _, ha => absurd ha (List.not_mem_nil a)
  | b :: l, hnd, ha => by
    have hbl : b ∉ l := (List.nodup_cons.mp hnd).1
    have hl : l.Nodup := (List.nodup_cons.mp hnd).2
    rcases List.mem_cons.mp ha with h | h
    · subst h
      simp [sum_map_ind_of_not_mem a l hbl]
    · have hba : ¬b = a := fun hba => hbl (hba ▸ h)
      simp [hba, sum_map_ind_of_nodup a l hl h]

/-- Summing the per-score multiplicities of `scores` over a duplicate-free
list `L` covering the elements of `scores`, restricted to a predicate
`q`, counts exactly the elements of `scores` satisfying `q`. -/
theorem sum_map_zero : ∀ l : List Int, (l.map fun _ => (0 : Nat)).sum = 0
  | [] => rfl
  | _ :: l => by simp [sum_map_zero l]

/-- Summing the per-score multiplicities of `scores` over a duplicate-free
list `L` covering the elements of `scores`, restricted to a predicate
`q`, counts exactly the elements of `scores` satisfying `q`. -/
theorem count_sum_filter (q : Int → Bool) :
    ∀ (scores L : List Int), L.Nodup → (∀ t ∈ scores, t ∈ L) →
      ((L.filter q).map fun t => scores.count t).sum = (scores.filter q).length
  | [], L, _, _ => by
    simp only [List.count_nil, sum_map_zero, List.filter_nil, List.length_nil]
  | a :: scores, L, hnd, hsub => by
    have ha : a ∈ L := hsub a (List.mem_cons_self a scores)
    have hsub' : ∀ t ∈ scores, t ∈ L := fun t ht => hsub t (List.mem_cons_of_mem a ht)
    have key : (fun t : Int => ((a :: scores).count t))
        = fun t : Int => scores.count t + (if t = a then 1 else 0) := by
      funext t
      rw [List.count_cons]
      by_cases h : t = a
      · simp [h]
      · simp [h]
        omega
    have hadd := sum_map_add (fun t => scores.count t)
      (fun t => if t = a then 1 else 0) (L.filter q)
    rw [key, hadd, count_sum_filter q scores L hnd hsub', List.filter_cons]
    by_cases hqa : q a = true
    · have hmem : a ∈ L.filter q := List.mem_filter.mpr ⟨ha, hqa⟩
      rw [sum_map_ind_of_nodup a (L.filter q) (hnd.filter q) hmem, if_pos hqa]
      simp
    · have hmem : a ∉ L.filter q := fun hmem => hqa (List.mem_filter.mp hmem).2
      rw [sum_map_ind_of_not_mem a (L.filter q) hmem, if_neg hqa]
      simp

/-- The tie counts emitted by the walk are the per-score counts, in
walk order. -/
theorem rankWalk_map_tieCount (c : Int → Nat) :
    ∀ (L : List Int) (b : Nat),
      (rankWalk c L b).map (fun e => e.2.tieCount) = L.map c
  | [], _ => rfl
  | s :: L, b => by
    simp [rankWalk, rankWalk_map_tieCount c L (b + c s)]

/-- Looking up a score in the walk over a strictly descending score list
finds the base rank plus the multiplicities of all strictly greater
scores, paired with the score's own multiplicity. -/
theorem rankWalk_lookup (c : Int → Nat) :
    ∀ (L : List Int) (b : Nat) (s : Int), L.Pairwise (fun x y => x > y) →
      lookupScore (rankWalk c L b) s
        = if s ∈ L then
            some ⟨b + ((L.filter fun t => decide (s < t)).map c).sum, c s⟩
          else none
  | [], b, s, _ => by simp [rankWalk, lookupScore]
  | a :: L, b, s, hp => by
    have hpa : ∀ t ∈ L, a > t := (List.pairwise_cons.mp hp).1
    have hpL : L.Pairwise (fun x y : Int => x > y) := (List.pairwise_cons.mp hp).2
    rw [rankWalk, lookupScore]
    by_cases hsa : s = a
    · subst hsa
      have hfilter : ((s :: L).filter fun t => decide (s < t)) = [] := by
        rw [List.filter_eq_nil_iff]
        intro t ht
        rcases List.mem_cons.mp ht with h | h
        · subst h
          simp
        · simp
          exact le_of_lt (hpa t h)
      rw [if_pos rfl, if_pos (List.mem_cons_self s L), hfilter]
      simp
    · rw [if_neg hsa, rankWalk_lookup c L (b + c a) s hpL]
      by_cases hsL : s ∈ L
      · have hlt : decide (s < a) = true := by
          simp
          exact hpa s hsL
        rw [if_pos hsL, if_pos (List.mem_cons_of_mem a hsL), List.filter_cons,
          if_pos hlt]
        simp [Nat.add_assoc]
      · have hnotmem : s ∉ a :: L := by
          simp [List.mem_cons, hsa, hsL]
        rw [if_neg hsL, if_neg hnotmem]

/-- Filtering the score projection of a player list has the same length
as filtering the players through the score predicate. -/
theorem length_filter_map_score (q : Int → Bool) :
    ∀ players : List Player,
      ((players.map Player.score).filter q).length
        = (players.filter fun p => q p.score).length
  | [] => rfl
  | p :: ps => by
    by_cases h : q p.score = true <;>
      simp [List.filter_cons, h, length_filter_map_score q ps]

/-- Characterization of `computeRanks`: each score present in the input
maps to rank `1 + (number of players with a strictly greater score)`
and tie count `(number of players at that score)`; absent scores are
not in the map. -/
theorem computeRanks_lookup (players : List Player) (s : Int) :
    lookupScore (computeRanks players) s
      = if s ∈ players.map Player.score then
          some ⟨1 + (players.filter fun p => decide (s < p.score)).length,
                (players.map Player.score).count s⟩
        else none := by
  have hperm : List.Perm (List.insertionSort (fun a b : Int => a ≥ b)
      (players.map Player.score).dedup) (players.map Player.score).dedup :=
    List.perm_insertionSort _ _
  have hnd : (List.insertionSort (fun a b : Int => a ≥ b)
      (players.map Player.score).dedup).Nodup :=
    hperm.nodup_iff.mpr (List.nodup_dedup _)
  have hsorted : List.Sorted (· ≥ ·) (List.insertionSort (fun a b : Int => a ≥ b)
      (players.map Player.score).dedup) :=
    List.sorted_insertionSort _ _
  have hgt : (List.insertionSort (fun a b : Int => a ≥ b)
      (players.map Player.score).dedup).Pairwise (fun x y : Int => x > y) :=
    hsorted.gt_of_ge hnd
  have hmem : ∀ t : Int, t ∈ List.insertionSort (fun a b : Int => a ≥ b)
      (players.map Player.score).dedup ↔ t ∈ players.map Player.score :=
    fun t => hperm.mem_iff.trans List.mem_dedup
  rw [computeRanks, rankWalk_lookup _ _ _ _ hgt]
  by_cases hs : s ∈ players.map Player.score
  · rw [if_pos ((hmem s).mpr hs), if_pos hs,
      count_sum_filter _ _ _ hnd (fun t ht => (hmem t).mpr ht),
      length_filter_map_score]
  · rw [if_neg (fun h => hs ((hmem s).mp h)), if_neg hs]

/-- Deduplicating a non-empty constant list yields the singleton. -/
theorem dedup_const (s : Int) :
    ∀ l : List Int, l ≠ [] → (∀ x ∈ l, x = s) → l.dedup = [s]
  | [], h, _ => absurd rfl h
  | [a], _, hall => by
    simp [hall a (List.mem_singleton_self a)]
  | a :: b :: l, _, hall => by
    have ha : a = s := hall a (by simp)
    have hb : b = s := hall b (by simp)
    have hmem : a ∈ b :: l := by
      rw [ha, hb]
      exact List.mem_cons_self s l
    rw [List.dedup_cons_of_mem hmem]
    exact dedup_const s (b :: l) (by simp)
      (fun x hx => hall x (List.mem_cons_of_mem a hx))

/-- C1: `computeRanks` produces exactly the standard competition
ranking: every score present in the input is mapped to rank
`1 + (number of players with a strictly greater score)` — which is the
running rank after walking the greater distinct scores and advancing by
their tie counts — and tie count `(number of players at that score)`;
absent scores are unmapped; and on the scores `[10, 8, 8, 5]` the
result maps `10 ↦ (rank 1, tieCount 1)`, `8 ↦ (rank 2, tieCount 2)` and
`5 ↦ (rank 4, tieCount 1)`. -/
theorem computeRanks_is_standard_competition_ranking :
    (∀ (players : List Player) (s : Int),
      lookupScore (computeRanks players) s
        = if s ∈ players.map Player.score then
            some ⟨1 + (players.filter fun p => decide (s < p.score)).length,
                  (players.map Player.score).count s⟩
          else none)
    ∧ computeRanks
        [⟨"a", "a", 10⟩, ⟨"b", "b", 8⟩, ⟨"c", "c", 8⟩, ⟨"d", "d", 5⟩]
        = [(10, ⟨1, 1⟩), (8, ⟨2, 2⟩), (5, ⟨4, 1⟩)] :=
  ⟨computeRanks_lookup, by decide⟩

/-- C7: the tie counts recorded by `computeRanks` sum to the number of
players in the input list. -/
theorem computeRanks_tieCount_sum (players : List Player) :
    ((computeRanks players).map fun e => e.2.tieCount).sum = players.length := by
  have hperm : List.Perm (List.insertionSort (fun a b : Int => a ≥ b)
      (players.map Player.score).dedup) (players.map Player.score).dedup :=
    List.perm_insertionSort _ _
  have hnd : (List.insertionSort (fun a b : Int => a ≥ b)
      (players.map Player.score).dedup).Nodup :=
    hperm.nodup_iff.mpr (List.nodup_dedup _)
  have hmem : ∀ t ∈ players.map Player.score,
      t ∈ List.insertionSort (fun a b : Int => a ≥ b)
        (players.map Player.score).dedup :=
    fun t ht => hperm.mem_iff.mpr (List.mem_dedup.mpr ht)
  have h := count_sum_filter (fun _ => true) (players.map Player.score)
    (List.insertionSort (fun a b : Int => a ≥ b)
      (players.map Player.score).dedup) hnd hmem
  rw [computeRanks, rankWalk_map_tieCount]
  simpa [List.filter_true, List.length_map] using h

/-- C8: `computeRanks` of the empty list is the empty map, and on a
non-empty list of players sharing one score it is the single entry
`(score, rank 1, tieCount n)`. -/
theorem computeRanks_edge_cases :
    computeRanks ([] : List Player) = []
    ∧ ∀ (players : List Player) (s : Int), players ≠ [] →
        (∀ p ∈ players, p.score = s) →
        computeRanks players = [(s, ⟨1, players.length⟩)] := by
  constructor
  · rfl
  · intro players s hne hall
    have hscores : ∀ x ∈ players.map Player.score, x = s := by
      intro x hx
      rcases List.mem_map.mp hx with ⟨p, hp, rfl⟩
      exact hall p hp
    have hne' : players.map Player.score ≠ [] := by
      cases players
      · exact absurd rfl hne
      · simp
    have hcount : (players.map Player.score).count s = players.length := by
      have h1 : (players.map Player.score).count s
          = (players.map Player.score).length :=
        List.count_eq_length.mpr (fun b hb => by simp [hscores b hb])
      rw [h1, List.length_map]
    rw [computeRanks, dedup_const s _ hne' hscores]
    simp [rankWalk, hcount]

/-- C8 witness: the empty list and a two-player tie at score 7. -/
theorem computeRanks_edge_cases_witness :
    computeRanks ([] : List Player) = []
    ∧ computeRanks [⟨"a", "a", 7⟩, ⟨"b", "b", 7⟩] = [(7, ⟨1, 2⟩)] :=
  ⟨computeRanks_edge_cases.1,
   computeRanks_edge_cases.2 [⟨"a", "a", 7⟩, ⟨"b", "b", 7⟩] 7 (by simp)
     (by decide)⟩

/-- C10: the rank map depends only on the multiset of scores — any two
player lists whose score projections are permutations of each other
(in particular, permuted player lists, or lists differing only in
non-score fields) produce equal rank maps. -/
theorem computeRanks_depends_only_on_scores (l₁ l₂ : List Player)
    (h : List.Perm (l₁.map Player.score) (l₂.map Player.score)) :
    computeRanks l₁ = computeRanks l₂ := by
  have hd : List.Perm (l₁.map Player.score).dedup (l₂.map Player.score).dedup :=
    h.dedup
  have hperm : List.Perm
      (List.insertionSort (fun a b : Int => a ≥ b) (l₁.map Player.score).dedup)
      (List.insertionSort (fun a b : Int => a ≥ b) (l₂.map Player.score).dedup) :=
    ((List.perm_insertionSort _ _).trans hd).trans
      (List.perm_insertionSort _ _).symm
  have hsort : List.insertionSort (fun a b : Int => a ≥ b)
      (l₁.map Player.score).dedup
      = List.insertionSort (fun a b : Int => a ≥ b)
        (l₂.map Player.score).dedup :=
    List.eq_of_perm_of_sorted hperm (List.sorted_insertionSort _ _)
      (List.sorted_insertionSort _ _)
  have hcount : (fun t : Int => (l₁.map Player.score).count t)
      = fun t : Int => (l₂.map Player.score).count t := by
    funext t
    exact h.count_eq t
  rw [computeRanks, computeRanks, hsort, hcount]

/-- C10 witness: swapping two players and renaming them leaves the rank
map unchanged. -/
theorem computeRanks_depends_only_on_scores_witness :
    List.Perm ([⟨"a", "a", 1⟩, ⟨"b", "b", 2⟩].map Player.score)
      ([⟨"b", "x", 2⟩, ⟨"a", "y", 1⟩].map Player.score)
    ∧ computeRanks [⟨"a", "a", 1⟩, ⟨"b", "b", 2⟩]
      = computeRanks [⟨"b", "x", 2⟩, ⟨"a", "y", 1⟩] :=
  ⟨by decide, computeRanks_depends_only_on_scores _ _ (by decide)⟩

/-- If some member of `l` falsifies `p`, fewer than `l.length` members
satisfy it. -/
theorem countP_lt_length {α : Type} (p : α → Bool) :
    ∀ (l : List α) (a : α), a ∈ l → p a = false → l.countP p < l.length
  | [], a, ha, _ => absurd ha (List.not_mem_nil a)
  | b :: l, a, ha, hpa => by
    rw [List.countP_cons, List.length_cons]
    rcases List.mem_cons.mp ha with h | h
    · subst h
      rw [hpa]
      have := List.countP_le_length (p := p) (l := l)
      simp
      omega
    · have := countP_lt_length p l a h hpa
      by_cases hb : p b = true
      · simp [hb]
        omega
      · simp [hb]
        omega

/-- Every field of a non-null `calculateWhatIf` result, written in
closed form: the score fields in terms of the unresolved-answer count,
and each rank as one plus a player count. -/
theorem calculateWhatIf_fields (sp : Player) (ps : List Player)
    (ans : List Answer) (r : WhatIfResult)
    (h : calculateWhatIf (some sp) ps (some ans) = some r) :
    r.unansweredCount = (ans.filter unresolved).length
    ∧ r.potentialPoints = (ans.filter unresolved).length
    ∧ r.currentScore = sp.score
    ∧ r.bestCaseScore = sp.score + ((ans.filter unresolved).length : Int)
    ∧ r.worstCaseScore = sp.score
    ∧ r.currentRank = 1 + ps.countP
        (fun p => decide (p.email ≠ sp.email) && decide (p.score > sp.score))
    ∧ r.bestCaseRank = 1 + ps.countP
        (fun p => decide (p.email ≠ sp.email)
          && decide (p.score > sp.score + ((ans.filter unresolved).length : Int)))
    ∧ r.worstCaseRank = 1 + ps.countP
        (fun p => decide (p.email ≠ sp.email)
          && decide (p.score + ((ans.filter unresolved).length : Int) > sp.score))
    ∧ r.totalPlayers = ps.length
    ∧ ps ≠ []
    ∧ 0 < (ans.filter unresolved).length := by
  simp only [calculateWhatIf] at h
  by_cases h0 : ps.length = 0
  · rw [if_pos h0] at h
    exact absurd h (by simp)
  · rw [if_neg h0] at h
    by_cases h1 : (ans.filter unresolved).length = 0
    · rw [if_pos h1] at h
      exact absurd h (by simp)
    · rw [if_neg h1] at h
      rw [Option.some.injEq] at h
      subst h
      refine ⟨rfl, rfl, rfl, rfl, rfl, ?_, ?_, ?_, rfl,
        fun hnil => h0 (by simp [hnil]), Nat.pos_of_ne_zero h1⟩
      · have hh := foldl_count_if
          (fun p : Player => p.email ≠ sp.email ∧ p.score > sp.score) ps 1
        simp only [Bool.decide_and] at hh
        exact hh
      · have hh := foldl_count_if
          (fun p : Player => p.email ≠ sp.email
            ∧ p.score > sp.score + ((ans.filter unresolved).length : Int)) ps 1
        simp only [Bool.decide_and] at hh
        exact hh
      · exact foldl_count_if₂ (fun p : Player => p.email ≠ sp.email)
          (fun p : Player =>
            p.score + ((ans.filter unresolved).length : Int) > sp.score) ps 1

/-- C2: `calculateWhatIf` returns `null` exactly when the selected
player is null, the answers are null, the players list is empty, or no
answer record is unresolved (every record has a truthy official answer
or a falsy user answer). -/
theorem calculateWhatIf_null_iff (sp : Option Player) (ps : List Player)
    (ans : Option (List Answer)) :
    calculateWhatIf sp ps ans = none ↔
      sp = none ∨ ans = none ∨ ps = []
      ∨ ∀ l : List Answer, ans = some l →
          ∀ a ∈ l, falsy a.official_answer = false ∨ falsy a.user_answer = true := by
  cases sp with
  | none => simp [calculateWhatIf]
  | some sp =>
    cases ans with
    | none => simp [calculateWhatIf]
    | some l =>
      have hresolved : ∀ a : Answer, unresolved a = false ↔
          (falsy a.official_answer = false ∨ falsy a.user_answer = true) := by
        intro a
        rw [unresolved]
        cases hof : falsy a.official_answer <;>
          cases hus : falsy a.user_answer <;> simp
      simp only [calculateWhatIf]
      by_cases h0 : ps.length = 0
      · have hps : ps = [] := List.length_eq_zero.mp h0
        simp [h0, hps]
      · rw [if_neg h0]
        by_cases h1 : (l.filter unresolved).length = 0
        · rw [if_pos h1]
          have hnil : l.filter unresolved = [] := List.length_eq_zero.mp h1
          have hall : ∀ a ∈ l, falsy a.official_answer = false
              ∨ falsy a.user_answer = true := by
            intro a ha
            have := List.filter_eq_nil_iff.mp hnil a ha
            exact (hresolved a).mp (by
              cases hu : unresolved a
              · rfl
              · exact absurd hu this)
          constructor
          · intro _
            refine Or.inr (Or.inr (Or.inr ?_))
            intro l' hl' a ha
            rw [Option.some.injEq] at hl'
            exact hall a (hl' ▸ ha)
          · intro _
            rfl
        · rw [if_neg h1]
          constructor
          · intro hcon
            exact absurd hcon (by simp)
          · intro hdisj
            rcases hdisj with h | h | h | h
            · exact absurd h (by simp)
            · exact absurd h (by simp)
            · exact absurd (by simp [h]) h0
            · refine absurd ?_ h1
              rw [List.length_eq_zero, List.filter_eq_nil_iff]
              intro a ha hu
              have := (hresolved a).mpr (h l rfl a ha)
              rw [hu] at this
              exact Bool.true_eq_false ▸ this ▸ rfl

/-- C3: on every non-null result, each of the three ranks is one plus
the number of players with a different identity whose relevant score
strictly exceeds the relevant reference score: the current score for
`currentRank`, the best-case score for `bestCaseRank`, and (with the
opponent granted `potentialPoints` extra points) the worst-case score
for `worstCaseRank`; ties never count as ahead. -/
theorem calculateWhatIf_rank_spec (sp : Player) (ps : List Player)
    (ans : List Answer) (r : WhatIfResult)
    (h : calculateWhatIf (some sp) ps (some ans) = some r) :
    r.currentRank = 1 + ps.countP
        (fun p => decide (p.email ≠ sp.email) && decide (p.score > r.currentScore))
    ∧ r.bestCaseRank = 1 + ps.countP
        (fun p => decide (p.email ≠ sp.email) && decide (p.score > r.bestCaseScore))
    ∧ r.worstCaseRank = 1 + ps.countP
        (fun p => decide (p.email ≠ sp.email)
          && decide (p.score + (r.potentialPoints : Int) > r.worstCaseScore)) := by
  obtain ⟨_, hpot, hcur, hbest, hworst, hcr, hbr, hwr, _, _, _⟩ :=
    calculateWhatIf_fields sp ps ans r h
  refine ⟨?_, ?_, ?_⟩
  · rw [hcur, hcr]
  · rw [hbest, hbr]
  · rw [hworst, hpot, hwr]

/-- C3 witness: a four-player leaderboard with one unresolved answer. -/
theorem calculateWhatIf_rank_spec_witness :
    (calculateWhatIf (some ⟨"me", "me", 5⟩)
        [⟨"me", "me", 5⟩, ⟨"leader", "l", 10⟩, ⟨"second", "s", 8⟩,
         ⟨"behind", "b", 3⟩]
        (some [⟨none, some "Yes"⟩]) = some ⟨1, 1, 5, 6, 5, 3, 3, 3, 4⟩)
    ∧ ((3 : Nat) = 1 + ([⟨"me", "me", 5⟩, ⟨"leader", "l", 10⟩,
          ⟨"second", "s", 8⟩, ⟨"behind", "b", 3⟩] : List Player).countP
        (fun p => decide (p.email ≠ "me") && decide (p.score > (5 : Int)))) :=
  ⟨by decide,
   (calculateWhatIf_rank_spec ⟨"me", "me", 5⟩
      [⟨"me", "me", 5⟩, ⟨"leader", "l", 10⟩, ⟨"second", "s", 8⟩,
       ⟨"behind", "b", 3⟩]
      [⟨none, some "Yes"⟩] ⟨1, 1, 5, 6, 5, 3, 3, 3, 4⟩ (by decide)).1⟩

/-- C4: on every non-null result, `potentialPoints` and
`unansweredCount` both equal the number of answer records with a falsy
official answer and a truthy user answer, `currentScore` is the
selected player's score, `bestCaseScore` adds `potentialPoints` to it,
and `worstCaseScore` equals `currentScore`. -/
theorem calculateWhatIf_score_spec (sp : Player) (ps : List Player)
    (ans : List Answer) (r : WhatIfResult)
    (h : calculateWhatIf (some sp) ps (some ans) = some r) :
    r.potentialPoints
        = (ans.filter fun a =>
            falsy a.official_answer && !falsy a.user_answer).length
    ∧ r.unansweredCount = r.potentialPoints
    ∧ r.currentScore = sp.score
    ∧ r.bestCaseScore = r.currentScore + (r.potentialPoints : Int)
    ∧ r.worstCaseScore = r.currentScore := by
  obtain ⟨huc, hpot, hcur, hbest, hworst, _, _, _, _, _, _⟩ :=
    calculateWhatIf_fields sp ps ans r h
  have hpred : (ans.filter fun a =>
      falsy a.official_answer && !falsy a.user_answer) = ans.filter unresolved := rfl
  refine ⟨?_, ?_, hcur, ?_, ?_⟩
  · rw [hpot, hpred]
  · rw [huc, hpot]
  · rw [hbest, hpot, hcur]
  · rw [hworst, hcur]

/-- C4 witness: same four-player leaderboard, one unresolved answer. -/
theorem calculateWhatIf_score_spec_witness :
    (1 : Nat) = (([⟨none, some "Yes"⟩] : List Answer).filter fun a =>
        falsy a.official_answer && !falsy a.user_answer).length :=
  (calculateWhatIf_score_spec ⟨"me", "me", 5⟩
      [⟨"me", "me", 5⟩, ⟨"leader", "l", 10⟩, ⟨"second", "s", 8⟩,
       ⟨"behind", "b", 3⟩]
      [⟨none, some "Yes"⟩] ⟨1, 1, 5, 6, 5, 3, 3, 3, 4⟩ (by decide)).1

/-- C5: on every non-null result the three ranks are ordered
`bestCaseRank ≤ currentRank ≤ worstCaseRank`. -/
theorem calculateWhatIf_rank_monotone (sp : Player) (ps : List Player)
    (ans : List Answer) (r : WhatIfResult)
    (h : calculateWhatIf (some sp) ps (some ans) = some r) :
    r.bestCaseRank ≤ r.currentRank ∧ r.currentRank ≤ r.worstCaseRank := by
  obtain ⟨_, _, _, _, _, hcr, hbr, hwr, _, _, _⟩ :=
    calculateWhatIf_fields sp ps ans r h
  constructor
  · rw [hbr, hcr]
    have hmono : ps.countP
        (fun p => decide (p.email ≠ sp.email)
          && decide (p.score > sp.score + ((ans.filter unresolved).length : Int)))
        ≤ ps.countP
          (fun p => decide (p.email ≠ sp.email) && decide (p.score > sp.score)) := by
      refine List.countP_mono_left ?_
      intro x _ hx
      simp only [Bool.and_eq_true, decide_eq_true_eq] at hx ⊢
      refine ⟨hx.1, ?_⟩
      have h2 := hx.2
      omega
    omega
  · rw [hcr, hwr]
    have hmono : ps.countP
        (fun p => decide (p.email ≠ sp.email) && decide (p.score > sp.score))
        ≤ ps.countP
          (fun p => decide (p.email ≠ sp.email)
            && decide (p.score + ((ans.filter unresolved).length : Int) > sp.score)) := by
      refine List.countP_mono_left ?_
      intro x _ hx
      simp only [Bool.and_eq_true, decide_eq_true_eq] at hx ⊢
      refine ⟨hx.1, ?_⟩
      have h2 := hx.2
      omega
    omega

/-- C5 witness: same four-player leaderboard, one unresolved answer. -/
theorem calculateWhatIf_rank_monotone_witness :
    (3 : Nat) ≤ 3 ∧ (3 : Nat) ≤ 3 :=
  calculateWhatIf_rank_monotone ⟨"me", "me", 5⟩
    [⟨"me", "me", 5⟩, ⟨"leader", "l", 10⟩, ⟨"second", "s", 8⟩,
     ⟨"behind", "b", 3⟩]
    [⟨none, some "Yes"⟩] ⟨1, 1, 5, 6, 5, 3, 3, 3, 4⟩ (by decide)

/-- C6 counterexample: when the selected player's identity is absent
from the players list, a rank can exceed `totalPlayers`.  With selected
player `b` (score 0), the single listed player `a` (score 100) and one
unresolved answer, the result has `totalPlayers = 1` but
`currentRank = bestCaseRank = worstCaseRank = 2`, so the claimed bound
`rank ≤ totalPlayers` fails at this input. -/
theorem calculateWhatIf_rank_exceeds_totalPlayers :
    calculateWhatIf (some ⟨"b", "b", 0⟩) [⟨"a", "a", 100⟩]
        (some [⟨none, some "Y"⟩])
      = some ⟨1, 1, 0, 1, 0, 2, 2, 2, 1⟩
    ∧ ((1 : Nat) < 2) :=
  ⟨by decide, by decide⟩

/-- C6 amended: on every non-null result `totalPlayers` echoes the
input list length and each rank is at least 1; the upper bound
`rank ≤ totalPlayers` holds whenever the selected player's identity
occurs in the players list (it can fail when the identity is absent,
as the counterexample shows). -/
theorem calculateWhatIf_rank_bounds (sp : Player) (ps : List Player)
    (ans : List Answer) (r : WhatIfResult)
    (h : calculateWhatIf (some sp) ps (some ans) = some r) :
    r.totalPlayers = ps.length
    ∧ (1 ≤ r.currentRank ∧ 1 ≤ r.bestCaseRank ∧ 1 ≤ r.worstCaseRank)
    ∧ (sp.email ∈ ps.map Player.email →
        r.currentRank ≤ r.totalPlayers ∧ r.bestCaseRank ≤ r.totalPlayers
          ∧ r.worstCaseRank ≤ r.totalPlayers) := by
  obtain ⟨_, _, _, _, _, hcr, hbr, hwr, htot, _, _⟩ :=
    calculateWhatIf_fields sp ps ans r h
  refine ⟨htot, ⟨by omega, by omega, by omega⟩, ?_⟩
  intro hmem
  rcases List.mem_map.mp hmem with ⟨p0, hp0, hemail⟩
  have hfalse : ∀ b : Bool, (decide (p0.email ≠ sp.email) && b) = false := by
    intro b
    simp [hemail]
  refine ⟨?_, ?_, ?_⟩
  · have := countP_lt_length
      (fun p : Player => decide (p.email ≠ sp.email) && decide (p.score > sp.score))
      ps p0 hp0 (hfalse _)
    omega
  · have := countP_lt_length
      (fun p : Player => decide (p.email ≠ sp.email)
        && decide (p.score > sp.score + ((ans.filter unresolved).length : Int)))
      ps p0 hp0 (hfalse _)
    omega
  · have := countP_lt_length
      (fun p : Player => decide (p.email ≠ sp.email)
        && decide (p.score + ((ans.filter unresolved).length : Int) > sp.score))
      ps p0 hp0 (hfalse _)
    omega

/-- C6 amended witness: the selected player appears in the list, so all
three ranks stay within `totalPlayers = 4`. -/
theorem calculateWhatIf_rank_bounds_witness :
    (4 : Nat) = ([⟨"me", "me", 5⟩, ⟨"leader", "l", 10⟩, ⟨"second", "s", 8⟩,
        ⟨"behind", "b", 3⟩] : List Player).length
    ∧ ((1 : Nat) ≤ 3 ∧ (1 : Nat) ≤ 3 ∧ (1 : Nat) ≤ 3)
    ∧ ("me" ∈ ([⟨"me", "me", 5⟩, ⟨"leader", "l", 10⟩, ⟨"second", "s", 8⟩,
        ⟨"behind", "b", 3⟩] : List Player).map Player.email →
        (3 : Nat) ≤ 4 ∧ (3 : Nat) ≤ 4 ∧ (3 : Nat) ≤ 4) :=
  calculateWhatIf_rank_bounds ⟨"me", "me", 5⟩
    [⟨"me", "me", 5⟩, ⟨"leader", "l", 10⟩, ⟨"second", "s", 8⟩,
     ⟨"behind", "b", 3⟩]
    [⟨none, some "Yes"⟩] ⟨1, 1, 5, 6, 5, 3, 3, 3, 4⟩ (by decide)

/-- C9: on array-shaped inputs both functions run without throwing —
the `Except`-modelled JS evaluations return `ok` with the pure result —
and the `null` results of `calculateWhatIf` are confined to exactly the
specified cases (null selected player, null answers, empty players
list, or all answers resolved). -/
theorem functions_total_on_valid_shapes :
    (∀ ps : List Player, computeRanksJS (some ps) = Except.ok (computeRanks ps))
    ∧ (∀ (sp : Option Player) (ps : List Player) (ans : Option (List Answer)),
        calculateWhatIfJS sp (some ps) ans = Except.ok (calculateWhatIf sp ps ans))
    ∧ (∀ (sp : Option Player) (ps : List Player) (ans : Option (List Answer)),
        (calculateWhatIf sp ps ans).isNone
          = (sp.isNone || ans.isNone || ps.isEmpty
              || (ans.getD []).all fun a => !unresolved a)) := by
  refine ⟨fun ps => rfl, ?_, ?_⟩
  · intro sp ps ans
    cases sp with
    | none => rfl
    | some sp =>
      cases ans with
      | none => rfl
      | some l => rfl
  · intro sp ps ans
    cases sp with
    | none => simp [calculateWhatIf]
    | some sp =>
      cases ans with
      | none => simp [calculateWhatIf]
      | some l =>
        simp only [calculateWhatIf, Option.isNone_some, Option.getD_some,
          Bool.false_or]
        by_cases h0 : ps.length = 0
        · rw [if_pos h0]
          have : ps.isEmpty = true := by
            rw [List.isEmpty_iff]
            exact List.length_eq_zero.mp h0
          simp [this]
        · have hne : ps.isEmpty = false := by
            rw [List.isEmpty_eq_false_iff_exists_mem]
            rcases List.exists_mem_of_length_pos (Nat.pos_of_ne_zero h0) with ⟨a, ha⟩
            exact ⟨a, ha⟩
          rw [if_neg h0]
          by_cases h1 : (l.filter unresolved).length = 0
          · rw [if_pos h1]
            have hnil : l.filter unresolved = [] := List.length_eq_zero.mp h1
            have : l.all (fun a => !unresolved a) = true := by
              rw [List.all_eq_true]
              intro a ha
              have := List.filter_eq_nil_iff.mp hnil a ha
              cases hu : unresolved a
              · rfl
              · exact absurd hu this
            simp [hne, this]
          · rw [if_neg h1]
            have hpos : l.filter unresolved ≠ [] := by
              intro hnil
              exact h1 (by rw [hnil]; rfl)
            rcases List.exists_mem_of_ne_nil _ hpos with ⟨a, ha⟩
            have hmem := List.mem_filter.mp ha
            have : l.all (fun a => !unresolved a) = false := by
              rw [List.all_eq_false]
              exact ⟨a, hmem.1, by simp [hmem.2]⟩
            simp [hne, this]

end Leaderboard
